import Mathlib

/-!
Verification of the TextRank pipeline in `textrank.py`.

The Python source is shallowly embedded below.  Python floats are modelled
as `ℚ` where only field arithmetic and comparisons occur, and as `ℝ` where
`math.sqrt` is involved.  Python exceptions are modelled with `Except PyErr`.
Python strings are modelled by Lean `String`; the string operations the code
uses (`str.split`, `str.strip`, `str.lower`, `sep.join`) are embedded as
structural functions over the character list so that concrete runs reduce
inside the kernel.
-/

namespace TextRank

/-- Exceptions that the embedded code can raise, named after the Python
exception classes that the corresponding operations raise. -/
inductive PyErr where
  | keyError
  | typeError
  | indexError
  | zeroDivisionError
  | statisticsError
deriving DecidableEq

/-- Schema of `WordNode` (`textrank.py` line 20): `word_id, raw, root, pos,
keep, idx`.  `word_id = 0` marks a token excluded from ranking. -/
structure WordNode where
  word_id : ℕ
  raw : String
  root : String
  pos : String
  keep : ℕ
  idx : ℤ
deriving DecidableEq

/-- Schema of `RankedLexeme` (line 21): `text, rank, ids, pos`.  The rank
type is a parameter: `ℚ` in the parts that only compare and divide ranks,
`ℝ` where `math.sqrt` enters. -/
structure RankedLexeme (α : Type) where
  text : String
  rank : α
  ids : List ℕ
  pos : String
deriving DecidableEq

/-- Schema of `SummarySent` (line 22): `dist, idx, text`. -/
structure SummarySent where
  dist : ℚ
  idx : ℕ
  text : String
deriving DecidableEq

/-- Schema of `ParsedGraf` (line 19): `id, sha1, graf`. -/
structure ParsedGraf where
  id : String
  sha1 : String
  graf : List WordNode
deriving DecidableEq

/-- One JSON document record consumed by `parse_doc`.  The two fields the
code reads are `meta["id"]` and `meta["text"]`; a missing key is modelled
by `none` (reading it raises `KeyError`). -/
structure DocMeta where
  id : Option String
  text : Option String
deriving DecidableEq

/-! ### Embedded Python string primitives -/

/-- Characters stripped by Python `str.strip()` (ASCII whitespace). -/
def is_space_char (c : Char) : Bool :=
  c = ' ' ∨ c = '\t' ∨ c = '\n' ∨ c = '\r' ∨ c = '\x0b' ∨ c = '\x0c'

/-- Model of Python `str.strip()` on the character list. -/
def py_strip (s : String) : String :=
  String.mk (((s.data.dropWhile is_space_char).reverse.dropWhile is_space_char).reverse)

/-- Splitting a character list at every occurrence of `sep`, keeping empty
pieces, as Python `str.split(sep)` does for a one-character separator:
`"a  b".split(" ") = ["a", "", "b"]` and `"".split(" ") = [""]`. -/
def split_chars (sep : Char) : List Char → List (List Char)
  | [] => [[]]
  | c :: cs =>
    if c = sep then [] :: split_chars sep cs
    else
      match split_chars sep cs with
      | [] => [[c]]
      | w :: ws => (c :: w) :: ws

/-- Model of Python `s.split(sep)` for a one-character separator. -/
def py_split (sep : Char) (s : String) : List String :=
  (split_chars sep s.data).map String.mk

/-- Model of Python `sep.join(parts)`. -/
def py_join (sep : String) : List String → String
  | [] => ""
  | [s] => s
  | s :: rest => s ++ sep ++ py_join sep rest

/-- Model of Python `str.lower()` (ASCII case folding suffices for the
tagged tokens the pipeline handles). -/
def py_lower (s : String) : String :=
  String.mk (s.data.map Char.toLower)

/-- Model of Python `line.startswith(">")`. -/
def starts_gt (s : String) : Bool :=
  match s.data with
  | c :: _ => c = '>'
  | [] => false

/-! ### `get_tiles` and `build_graph` (lines 213-253) -/

/-- The kept tokens of a sentence: `keeps = list(filter(lambda w: w.word_id > 0, graf))`
(line 216). -/
def keeps_of (graf : List WordNode) : List WordNode :=
  graf.filter (fun w => 0 < w.word_id)

/-- `get_tiles` (lines 213-226): for `i in range(0, keeps_len - 1)` and
`j in range(i + 1, min(keeps_len, i + 1 + size))`, yield
`(keeps[i].root, keeps[j].root)` whenever `keeps[j].idx - keeps[i].idx <= size`. -/
def get_tiles (graf : List WordNode) (size : ℕ := 3) : List (String × String) :=
  let keeps := keeps_of graf
  (List.range (keeps.length - 1)).flatMap fun i =>
    (List.range' (i + 1) (min keeps.length (i + 1 + size) - (i + 1))).filterMap fun j =>
      match keeps.get? i, keeps.get? j with
      | some w0, some w1 =>
        if w1.idx - w0.idx ≤ (size : ℤ) then some (w0.root, w1.root) else none
      | _, _ => none

/-- One edge-accumulation step of `build_graph` (lines 248-251): increment
the weight of an existing edge, otherwise insert it with weight `1`
(`try: ... += 1.0 except KeyError: add_edge(..., weight=1.0)`).  Weights
stay integral, so they are modelled in `ℕ`. -/
def inc_edge (g : List ((String × String) × ℕ)) (p : String × String) :
    List ((String × String) × ℕ) :=
  if g.any (fun e => e.1 = p) then
    g.map (fun e => if e.1 = p then (e.1, e.2 + 1) else e)
  else
    g ++ [(p, 1)]

/-- `build_graph` (lines 229-253): accumulate every tile pair of every
sentence into one weighted edge list.  (Isolated-node bookkeeping has no
bearing on edge weights and is omitted.) -/
def build_graph (grafs : List (List WordNode)) : List ((String × String) × ℕ) :=
  grafs.foldl (fun g graf => (get_tiles graf).foldl inc_edge g) []

/-! ### `find_chunk` and chunk collection (lines 285-317, 358-366) -/

/-- Inner loop of `find_chunk_sub` (lines 287-291), walking `np` while
comparing `phrase[i + j].text` against `np[j]`.  Reading `phrase[i + j]`
past the end raises `IndexError`; a text mismatch answers `false`. -/
def fcs_go {α : Type} (phrase : List (RankedLexeme α)) : List String → ℕ → Except PyErr Bool
  | [], _ => .ok true
  | s :: rest, k =>
    match phrase.get? k with
    | none => .error .indexError
    | some p => if p.text ≠ s then .ok false else fcs_go phrase rest (k + 1)

/-- `find_chunk_sub` (lines 285-293): align `np` against `phrase` starting
at offset `i`; on success return the slice `phrase[i : i + len(np)]`
(a Python slice, which never raises), on mismatch return `None`. -/
def find_chunk_sub {α : Type} (phrase : List (RankedLexeme α)) (np : List String) (i : ℕ) :
    Except PyErr (Option (List (RankedLexeme α))) := do
  if (← fcs_go phrase np i) then
    pure (some ((phrase.drop i).take np.length))
  else
    pure none

/-- Loop of `find_chunk` (lines 296-302) over the start offsets
`i in range(0, len(phrase))`.  Python truthiness: an empty slice is falsy
and the scan continues. -/
def fc_go {α : Type} (phrase : List (RankedLexeme α)) (np : List String) :
    List ℕ → Except PyErr (Option (List (RankedLexeme α)))
  | [] => .ok none
  | i :: rest => do
    match ← find_chunk_sub phrase np i with
    | some l => if l.isEmpty then fc_go phrase np rest else pure (some l)
    | none => fc_go phrase np rest

/-- `find_chunk` (lines 296-302): first alignment of `np` inside `phrase`,
`None` when no offset matches. -/
def find_chunk {α : Type} (phrase : List (RankedLexeme α)) (np : List String) :
    Except PyErr (Option (List (RankedLexeme α))) :=
  fc_go phrase np (List.range phrase.length)

/-- `collect_chunks` (lines 304-317), materialised in yield order: for a
run longer than one token, each chunker phrase distinct from the run's
joined text is yielded together with its alignment (`None` when
unalignable); when no such phrase exists and no run member is verb-led,
the whole run is yielded.  The external `textblob` noun-phrase chunker is
the `chunker` parameter. -/
def collect_chunks {α : Type} (chunker : String → List String) (phrase : List (RankedLexeme α)) :
    Except PyErr (List (String × Option (List (RankedLexeme α)))) :=
  if 1 < phrase.length then do
    let text := py_join " " (phrase.map (·.text))
    let nps := (chunker text).filter (fun np => np ≠ text)
    let aligned ← nps.mapM (fun np => do pure (np, ← find_chunk phrase (py_split ' ' np)))
    if nps.isEmpty ∧ phrase.all (fun rl => rl.pos.front ≠ 'v') then
      pure (aligned ++ [(text, some phrase)])
    else
      pure aligned
  else
    pure []

/-- Union of the member identity sets of a chunk:
`list(set.union(*[set(rl.ids) for rl in p]))` (line 359). -/
def ids_union {α : Type} (p : List (RankedLexeme α)) : List ℕ :=
  (p.flatMap (·.ids)).dedup

/-- The chunk consumption loop of `normalize_key_phrases` (lines 358-366)
fused with the `collect_chunks` generator it drains, preserving the lazy
evaluation order: for each chunker phrase, the alignment runs first (it can
raise `IndexError`), then the loop body consumes the alignment — a `None`
alignment makes `set.union(*[set(rl.ids) for rl in p])` raise `TypeError`.
The rank expression of line 360 is the `combine` parameter (see
`chunk_rank` for its `ℝ` instantiation). -/
def consume_chunks {α : Type} (combine : List (RankedLexeme α) → α)
    (chunker : String → List String) (phrase : List (RankedLexeme α)) :
    Except PyErr (List (RankedLexeme α)) :=
  if 1 < phrase.length then do
    let text := py_join " " (phrase.map (·.text))
    let nps := (chunker text).filter (fun np => np ≠ text)
    let emitted ← nps.mapM (fun np => do
      match ← find_chunk phrase (py_split ' ' np) with
      | none => .error .typeError
      | some p => pure (RankedLexeme.mk np (combine p) (ids_union p) "np"))
    if nps.isEmpty ∧ phrase.all (fun rl => rl.pos.front ≠ 'v') then
      pure (emitted ++ [RankedLexeme.mk text (combine phrase) (ids_union phrase) "np"])
    else
      pure emitted
  else
    pure []

/-- The phrase-rank formula of line 360 over `ℝ`:
`math.sqrt(sum([rl.rank**2.0 for rl in p])) / float(len(p)) + max_single_rank`. -/
noncomputable def chunk_rank (p : List (RankedLexeme ℝ)) (max_single_rank : ℝ) : ℝ :=
  Real.sqrt ((p.map (fun rl => rl.rank ^ 2)).sum) / (p.length : ℝ) + max_single_rank

/-- `consume_chunks` instantiated at `ℝ` with the rank formula of line 360,
exactly as `normalize_key_phrases` runs it. -/
noncomputable def consume_chunks_real (chunker : String → List String)
    (phrase : List (RankedLexeme ℝ)) (max_single_rank : ℝ) :
    Except PyErr (List (RankedLexeme ℝ)) :=
  consume_chunks (fun p => chunk_rank p max_single_rank) chunker phrase

/-! ### The phrase-run accumulator of `normalize_key_phrases` (lines 344-371) -/

/-- The run-extension test of line 352:
`(w.word_id > 0) and (w.root in ranks) and ((w.idx - last_idx) == 1)`.
The rank map is an association list mirroring the Python dict. -/
def collectible (ranks : List (String × ℚ)) (last_idx : ℤ) (w : WordNode) : Bool :=
  0 < w.word_id ∧ (ranks.lookup w.root).isSome ∧ w.idx - last_idx = 1

/-- The `RankedLexeme` built for a collected token (lines 354-355):
`RankedLexeme(text=w.raw.lower(), rank=ranks[w.root], ids=[w.word_id], pos=w.pos.lower())`. -/
def token_lexeme (ranks : List (String × ℚ)) (w : WordNode) : RankedLexeme ℚ :=
  RankedLexeme.mk (py_lower w.raw) ((ranks.lookup w.root).getD 0) [w.word_id] (py_lower w.pos)

/-- The `while tail < len(sent)` loop of lines 349-371, reduced to the runs
it hands to `collect_chunks`: a collected token extends `phrase`, any other
token flushes `phrase` (possibly empty — `collect_chunks` ignores runs of
length ≤ 1) and resets it; `last_idx` is updated on every token.  When the
sentence ends the accumulator is dropped without a flush. -/
def phrase_pass_go (ranks : List (String × ℚ)) :
    List WordNode → ℤ → List (RankedLexeme ℚ) → List (List (RankedLexeme ℚ))
  | [], _, _ => []
  | w :: rest, last_idx, phrase =>
    if collectible ranks last_idx w then
      phrase_pass_go ranks rest w.idx (phrase ++ [token_lexeme ranks w])
    else
      phrase :: phrase_pass_go ranks rest w.idx []

/-- The flushed runs of one sentence, started with
`last_idx = sent[0].idx - 1` (line 346; an empty sentence would raise
`IndexError` upstream and produces no runs). -/
def phrase_pass (ranks : List (String × ℚ)) (sent : List WordNode) :
    List (List (RankedLexeme ℚ)) :=
  match sent with
  | [] => []
  | w :: _ => phrase_pass_go ranks sent (w.idx - 1) []

/-- State of the `last_idx` variable after the loop has consumed a list of
tokens (line 370 assigns `last_idx = w.idx` on every iteration). -/
def last_idx_after (last_idx : ℤ) : List WordNode → ℤ
  | [] => last_idx
  | w :: rest => last_idx_after w.idx rest

/-- A token list that the loop would absorb entirely into the accumulator
when reached with the given `last_idx`: every token is kept, ranked and at
position gap exactly 1 from its predecessor. -/
def is_run (ranks : List (String × ℚ)) : ℤ → List WordNode → Bool
  | _, [] => true
  | last_idx, w :: rest => collectible ranks last_idx w && is_run ranks w.idx rest

/-- The initial value of `last_idx` for a sentence
(`last_idx = sent[0].idx - 1`, line 346). -/
def run_start : List WordNode → ℤ
  | [] => 0
  | w :: _ => w.idx - 1

/-! ### Final normalization of `normalize_key_phrases` (lines 373-376) -/

/-- `sorted(lex.values(), key=lambda rl: rl.rank, reverse=True)` (line 375):
a stable descending sort by rank. -/
def sort_desc (lex : List (RankedLexeme ℚ)) : List (RankedLexeme ℚ) :=
  lex.mergeSort (fun a b => decide (b.rank ≤ a.rank))

/-- Lines 373-376: divide every collected rank by the sum of all collected
ranks and yield in descending rank order.  Python would raise
`ZeroDivisionError` at the first division if the sum were zero; with no
collected lexeme the loop body never runs and the generator is silently
empty. -/
def normalize_ranks (lex : List (RankedLexeme ℚ)) : Except PyErr (List (RankedLexeme ℚ)) :=
  let sum_ranks := (lex.map (·.rank)).sum
  (sort_desc lex).mapM (fun rl =>
    if sum_ranks = 0 then .error .zeroDivisionError
    else .ok { rl with rank := rl.rank / sum_ranks })

/-! ### `limit_keyphrases` (lines 426-444) -/

/-- The yield loop of `limit_keyphrases` (lines 438-444): verb-led lexemes
are skipped outright; at any other lexeme the generator returns permanently
once `used > phrase_limit` or the rank falls below the mean-rank threshold,
and otherwise yields the text and increments `used`. -/
def lk_go (rank_thresh : ℚ) (phrase_limit : ℕ) :
    List (RankedLexeme ℚ) → ℕ → List String
  | [], _ => []
  | rl :: rest, used =>
    if rl.pos.front ≠ 'v' then
      if phrase_limit < used ∨ rl.rank < rank_thresh then []
      else rl.text :: lk_go rank_thresh phrase_limit rest (used + 1)
    else lk_go rank_thresh phrase_limit rest used

/-- `limit_keyphrases` (lines 426-444): materialise the lexeme stream,
take the mean rank as threshold (`statistics.mean` raises
`StatisticsError` on an empty stream), then run the yield loop with
`used = 0`. -/
def limit_keyphrases (lex : List (RankedLexeme ℚ)) (phrase_limit : ℕ := 20) :
    Except PyErr (List String) :=
  if lex.isEmpty then .error .statisticsError
  else .ok (lk_go ((lex.map (·.rank)).sum / (lex.length : ℚ)) phrase_limit lex 0)

/-! ### `limit_sentences` (lines 447-460) -/

/-- The loop of `limit_sentences` (lines 451-460): split the sentence text
on single spaces, and either stop the whole iteration (first sentence whose
word count would push the running total past `word_limit`) or yield
`(words, idx)` and accumulate. -/
def ls_go (word_limit : ℕ) : List SummarySent → ℕ → List (List String × ℕ)
  | [], _ => []
  | p :: rest, word_count =>
    let sent_text := py_split ' ' p.text
    if word_limit < word_count + sent_text.length then []
    else (sent_text, p.idx) :: ls_go word_limit rest (word_count + sent_text.length)

/-- `limit_sentences` (lines 447-460), starting from `word_count = 0`. -/
def limit_sentences (sents : List SummarySent) (word_limit : ℕ := 100) :
    List (List String × ℕ) :=
  ls_go word_limit sents 0

/-! ### `parse_doc` and its quote filtering (lines 33-91, 191-207) -/

/-- `split_grafs` (lines 33-49): group stripped non-blank lines into
paragraphs joined by newlines; a blank line flushes a non-empty group, and
a trailing group is flushed at the end. -/
def split_grafs_go : List String → List String → List String
  | [], graf => if graf.isEmpty then [] else [py_join "\n" graf.reverse]
  | l :: ls, graf =>
    let l := py_strip l
    if l.length < 1 then
      if graf.isEmpty then split_grafs_go ls graf
      else py_join "\n" graf.reverse :: split_grafs_go ls []
    else split_grafs_go ls (l :: graf)

/-- `split_grafs` (lines 33-49) applied to a list of lines. -/
def split_grafs (lines : List String) : List String :=
  split_grafs_go lines []

/-- `filter_quotes(text, is_email=False)` (lines 52-91): with the email
patterns skipped, quoted lines (starting with `>`) are blanked and the rest
is regrouped into paragraphs. -/
def filter_quotes (text : String) : List String :=
  split_grafs ((py_split '\n' text).map (fun line => if starts_gt line then "" else line))

/-- The inner paragraph loop of `parse_doc` (lines 199-207): run the
(external) `parse_graf` on each paragraph, threading `base_idx` and
yielding every parsed sentence.  `parse_graf` itself wraps the external
tagger/lemmatizer, so it is a parameter here. -/
def process_grafs (parse_graf_fn : String → String → ℕ → List ParsedGraf × ℕ)
    (doc_id : String) : List String → ℕ → List ParsedGraf × ℕ
  | [], base_idx => ([], base_idx)
  | t :: ts, base_idx =>
    let (grafs, new_base_idx) := parse_graf_fn doc_id t base_idx
    let (rest, final_idx) := process_grafs parse_graf_fn doc_id ts new_base_idx
    (grafs ++ rest, final_idx)

/-- `parse_doc` (lines 191-207) as observed by a consumer that drains the
generator: the sentences yielded before any exception, paired with the
exception (if any) that terminated the iteration.  `meta["text"]` is read
first (as the argument of `filter_quotes`); `meta["id"]` is only read when
the document produces at least one paragraph, so a missing key surfaces as
`KeyError` exactly where Python raises it, and nothing after the raising
document is processed. -/
def parse_doc (parse_graf_fn : String → String → ℕ → List ParsedGraf × ℕ) :
    List DocMeta → List ParsedGraf × Option PyErr
  | [] => ([], none)
  | meta :: rest =>
    match meta.text with
    | none => ([], some .keyError)
    | some txt =>
      match filter_quotes txt, meta.id with
      | [], _ => parse_doc parse_graf_fn rest
      | _ :: _, none => ([], some .keyError)
      | gt :: gts, some doc_id =>
        ((process_grafs parse_graf_fn doc_id (gt :: gts) 0).1 ++
            (parse_doc parse_graf_fn rest).1,
          (parse_doc parse_graf_fn rest).2)

/-! ### Concrete inputs used by the per-claim theorems below -/

/-- A sentence with kept tokens at positions 0, 1 and 4 (the two middle
tokens are punctuation-class with `word_id = 0`). -/
def ex_sent_014 : List WordNode :=
  [WordNode.mk 1 "A" "a" "nn" 1 0, WordNode.mk 2 "B" "b" "nn" 1 1,
   WordNode.mk 0 "," "," "." 0 2, WordNode.mk 0 "-" "-" "." 0 3,
   WordNode.mk 3 "C" "c" "nn" 1 4]

/-- The parsed corpus "cat eats cat": the two occurrences of the root
`"cat"` share one word identity and sit two positions apart. -/
def ex_grafs_cat : List (List WordNode) :=
  [[WordNode.mk 1 "cat" "cat" "nn" 1 0, WordNode.mk 2 "eats" "eat" "vb" 1 1,
    WordNode.mk 1 "cat" "cat" "nn" 1 2]]

/-- A two-token run, as `normalize_key_phrases` hands it to the chunker. -/
def ex_run_redcat : List (RankedLexeme ℚ) :=
  [RankedLexeme.mk "red" 0 [1] "jj", RankedLexeme.mk "cat" 0 [2] "nn"]

/-- Another two-token run, for the witness of the amended C3 statement. -/
def ex_run_bigdog : List (RankedLexeme ℚ) :=
  [RankedLexeme.mk "big" 0 [3] "jj", RankedLexeme.mk "dog" 0 [4] "nn"]

/-- A stream of 22 equally ranked non-verb key phrases. -/
def ex_lex22 : List (RankedLexeme ℚ) :=
  List.replicate 22 (RankedLexeme.mk "t" 2 [1] "np")

/-- A one-element key-phrase stream. -/
def ex_lex1 : List (RankedLexeme ℚ) :=
  [RankedLexeme.mk "s" 3 [2] "nn"]

/-- A two-element collected lexeme map with positive ranks. -/
def ex_lex_pos : List (RankedLexeme ℚ) :=
  [RankedLexeme.mk "a" (1/2) [1] "nn", RankedLexeme.mk "b" (1/4) [2] "nn"]

/-- Members with single-word ranks 0.3 and 0.4, for the phrase-rank
formula. -/
noncomputable def ex_run_real : List (RankedLexeme ℝ) :=
  [RankedLexeme.mk "red" (3/10) [1] "jj", RankedLexeme.mk "cat" (2/5) [2] "nn"]

/-- A stand-in for the external `parse_graf`: one parsed sentence per
paragraph, recording the document id and paragraph text. -/
def ex_parse_fn : String → String → ℕ → List ParsedGraf × ℕ :=
  fun doc_id txt base_idx => ([ParsedGraf.mk doc_id txt []], base_idx + 1)

/-- A corpus whose second document lacks its text body. -/
def ex_docs_bad : List DocMeta :=
  [DocMeta.mk (some "d1") (some "hello"), DocMeta.mk (some "d2") none,
   DocMeta.mk (some "d3") (some "world")]

/-- Rank map for the trailing-run example. -/
def ex_ranks_cd : List (String × ℚ) := [("cat", 1/10), ("dog", 1/10)]

/-- An unkept determiner token. -/
def ex_tok_the : WordNode := WordNode.mk 0 "The" "the" "dt" 0 0

/-- A kept, ranked noun token at position 1. -/
def ex_tok_cat : WordNode := WordNode.mk 1 "Cat" "cat" "nn" 1 1

/-- A kept, ranked noun token at position 2. -/
def ex_tok_dog : WordNode := WordNode.mk 2 "Dog" "dog" "nn" 1 2

/-! ### Shared helper lemmas -/

/-- One `inc_edge` step keeps every edge weight at least 1. -/
theorem inc_edge_weight_ge_one {g : List ((String × String) × ℕ)} {p : String × String}
    (h : ∀ e ∈ g, 1 ≤ e.2) : ∀ e ∈ inc_edge g p, 1 ≤ e.2 := by
  intro e he
  unfold inc_edge at he
  by_cases hc : g.any (fun e => e.1 = p)
  · rw [if_pos hc] at he
    obtain ⟨e', he', rfl⟩ := List.mem_map.mp he
    by_cases hp : e'.1 = p
    · have := h e' he'
      simp only [if_pos hp]
      omega
    · simp only [if_neg hp]
      exact h e' he'
  · rw [if_neg hc] at he
    rcases List.mem_append.mp he with h1 | h2
    · exact h e h1
    · simp only [List.mem_singleton] at h2
      subst h2
      exact le_refl 1

/-- Folding `inc_edge` over any pair list keeps weights at least 1. -/
theorem foldl_inc_edge_weight (l : List (String × String)) :
    ∀ g, (∀ e ∈ g, 1 ≤ e.2) → ∀ e ∈ l.foldl inc_edge g, 1 ≤ e.2 := by
  induction l with
  | nil => intro g h; simpa using h
  | cons p rest ih => intro g h; exact ih _ (inc_edge_weight_ge_one h)

/-- Folding whole sentences into the graph keeps weights at least 1. -/
theorem build_graph_go_weight (grafs : List (List WordNode)) :
    ∀ g, (∀ e ∈ g, 1 ≤ e.2) →
      ∀ e ∈ grafs.foldl (fun g graf => (get_tiles graf).foldl inc_edge g) g, 1 ≤ e.2 := by
  induction grafs with
  | nil => intro g h; simpa using h
  | cons gr rest ih => intro g h; exact ih _ (foldl_inc_edge_weight _ _ h)

/-! ### C2 -/

/-- C2 counterexample: in the corpus "cat eats cat" the tiler pairs the two
occurrences of the root "cat" (distinct kept-token slots, position gap
2 ≤ 3), so `build_graph` contains the self-loop edge cat→cat. -/
theorem build_graph_self_loop_cex :
    (("cat", "cat"), 1) ∈ build_graph ex_grafs_cat := by decide

/-- C2 (amended): every edge accumulated by `build_graph` from `get_tiles`
pairs has weight ≥ 1; but the tiler only excludes identical kept-token
slots (`i = j`), not identical roots, so an edge whose source root equals
its target root can occur when two distinct kept tokens inside the window
share a root. -/
theorem build_graph_weight_ge_one (grafs : List (List WordNode)) :
    ∀ e ∈ build_graph grafs, 1 ≤ e.2 :=
  build_graph_go_weight grafs [] (by simp)

/-- C2 witness: the weight bound evaluated on the "cat eats cat" corpus. -/
theorem build_graph_weight_ge_one_witness :
    (("cat", "eat"), 1) ∈ build_graph ex_grafs_cat ∧
      1 ≤ ((("cat", "eat"), 1) : (String × String) × ℕ).2 :=
  ⟨by decide, build_graph_weight_ge_one ex_grafs_cat _ (by decide)⟩

/-! ### C4 -/

/-- C4 counterexample: with an empty collected lexeme map the final loop of
`normalize_key_phrases` (lines 373-376) never runs, so the generator
succeeds with no output — there is no `EmptyCorpusError` anywhere in the
code and no error is raised. -/
theorem normalize_ranks_empty_cex :
    normalize_ranks ([] : List (RankedLexeme ℚ)) = .ok [] := by
  simp only [normalize_ranks, sort_desc, List.mergeSort_nil]
  rfl

/-- C4 (amended): an input corpus with no rankable lexemes (empty lexeme
map) makes `normalize_key_phrases` silently yield nothing: the
normalization step succeeds with an empty output instead of failing with
an `EmptyCorpusError` (no such exception exists in the code). -/
theorem normalize_ranks_empty_silent (lex : List (RankedLexeme ℚ)) (h : lex = []) :
    normalize_ranks lex = .ok [] := by
  subst h
  simp only [normalize_ranks, sort_desc, List.mergeSort_nil]
  rfl

/-- C4 witness: the amended statement applied to the empty lexeme map. -/
theorem normalize_ranks_empty_silent_witness :
    ([] : List (RankedLexeme ℚ)) = [] ∧ normalize_ranks ([] : List (RankedLexeme ℚ)) = .ok [] :=
  ⟨rfl, normalize_ranks_empty_silent [] rfl⟩

/-! ### C5 -/

/-- C5: `get_tiles` yields `(root i, root j)` exactly for kept-token slots
`i < j` with `j` among the next `size` slots (`j ≤ i + size`) and position
gap `idx_j - idx_i ≤ size`; concretely, with kept tokens at positions
0, 1, 4 and `size = 3`, the pair of slots (0, 1) is yielded and the pair
(0, 2) — positions 0 and 4, gap 4 > 3 — is not. -/
theorem get_tiles_spec :
    (∀ (graf : List WordNode) (size : ℕ) (a b : String),
      (a, b) ∈ get_tiles graf size ↔
        ∃ i j, ∃ hi : i < (keeps_of graf).length, ∃ hj : j < (keeps_of graf).length,
          i < j ∧ j ≤ i + size ∧
          ((keeps_of graf).get ⟨j, hj⟩).idx - ((keeps_of graf).get ⟨i, hi⟩).idx ≤ (size : ℤ) ∧
          a = ((keeps_of graf).get ⟨i, hi⟩).root ∧ b = ((keeps_of graf).get ⟨j, hj⟩).root) ∧
    ("a", "b") ∈ get_tiles ex_sent_014 3 ∧ ("a", "c") ∉ get_tiles ex_sent_014 3 := by
  refine ⟨fun graf size a b => ?_, by decide, by decide⟩
  unfold get_tiles
  simp only [List.mem_flatMap, List.mem_range, List.mem_filterMap, List.mem_range'_1]
  constructor
  · rintro ⟨i, hi, j, ⟨hj1, hj2⟩, hmatch⟩
    have hin : i < (keeps_of graf).length := by omega
    have hjn : j < (keeps_of graf).length := by omega
    have hjsz : j ≤ i + size := by omega
    rw [List.get?_eq_get hin, List.get?_eq_get hjn] at hmatch
    dsimp only at hmatch
    by_cases hgap :
        ((keeps_of graf).get ⟨j, hjn⟩).idx - ((keeps_of graf).get ⟨i, hin⟩).idx ≤ (size : ℤ)
    · rw [if_pos hgap] at hmatch
      obtain ⟨ha, hb⟩ := Prod.mk.injEq .. ▸ Option.some.injEq .. ▸ hmatch
      exact ⟨i, j, hin, hjn, by omega, hjsz, hgap, ha.symm, hb.symm⟩
    · rw [if_neg hgap] at hmatch
      exact absurd hmatch (by simp)
  · rintro ⟨i, j, hi, hj, hij, hjsz, hgap, ha, hb⟩
    refine ⟨i, by omega, j, ⟨by omega, by omega⟩, ?_⟩
    rw [List.get?_eq_get hi, List.get?_eq_get hj]
    dsimp only
    rw [if_pos hgap, ha, hb]

/-! ### C7 -/

/-- Full characterisation of the `limit_sentences` loop from any starting
word count: the yielded word counts fit the remaining budget, the yields
are a prefix transform of the input, and iteration either consumed every
sentence or stopped right at the first sentence that would overflow. -/
theorem ls_go_spec (word_limit : ℕ) :
    ∀ (sents : List SummarySent) (word_count : ℕ),
      (((ls_go word_limit sents word_count).map (fun q => q.1.length)).sum + word_count ≤
          word_limit ∨ ls_go word_limit sents word_count = []) ∧
      ls_go word_limit sents word_count =
        (sents.take (ls_go word_limit sents word_count).length).map
          (fun p => (py_split ' ' p.text, p.idx)) ∧
      ((ls_go word_limit sents word_count).length = sents.length ∨
        word_limit < word_count +
          ((sents.map (fun p => (py_split ' ' p.text).length)).take
            ((ls_go word_limit sents word_count).length + 1)).sum) := by
  intro sents
  induction sents with
  | nil => exact fun wc => ⟨Or.inr rfl, rfl, Or.inl rfl⟩
  | cons p rest ih =>
    intro wc
    by_cases hc : word_limit < wc + (py_split ' ' p.text).length
    · have hgo : ls_go word_limit (p :: rest) wc = [] := by
        simp only [ls_go]
        rw [if_pos hc]
      refine ⟨Or.inr hgo, by simp [hgo], Or.inr ?_⟩
      rw [hgo]
      simp only [List.length_nil, List.map_cons, Nat.zero_add, List.take_succ_cons,
        List.take_zero, List.sum_cons, List.sum_nil]
      omega
    · have hgo : ls_go word_limit (p :: rest) wc =
          (py_split ' ' p.text, p.idx) ::
            ls_go word_limit rest (wc + (py_split ' ' p.text).length) := by
        simp only [ls_go]
        rw [if_neg hc]
      obtain ⟨ih1, ih2, ih3⟩ := ih (wc + (py_split ' ' p.text).length)
      rw [hgo]
      refine ⟨Or.inl ?_, ?_, ?_⟩
      · simp only [List.map_cons, List.sum_cons]
        rcases ih1 with h | h
        · omega
        · rw [h]
          simp only [List.map_nil, List.sum_nil]
          omega
      · simp only [List.length_cons, List.take_succ_cons, List.map_cons]
        exact congrArg _ ih2
      · rcases ih3 with h | h
        · exact Or.inl (by simp [h])
        · refine Or.inr ?_
          simp only [List.length_cons, List.map_cons, List.take_succ_cons, List.sum_cons]
          omega

/-- C7: the sentences yielded by `limit_sentences` total at most
`word_limit` words, form a prefix (in input order, i.e. descending
distance) of the stream, and the iteration either consumed the whole
stream or stopped exactly at the first sentence whose word count would
exceed the budget — no later sentence is included. -/
theorem limit_sentences_spec (sents : List SummarySent) (word_limit : ℕ) :
    ((limit_sentences sents word_limit).map (fun q => q.1.length)).sum ≤ word_limit ∧
    limit_sentences sents word_limit =
      (sents.take (limit_sentences sents word_limit).length).map
        (fun p => (py_split ' ' p.text, p.idx)) ∧
    ((limit_sentences sents word_limit).length = sents.length ∨
      word_limit <
        ((sents.map (fun p => (py_split ' ' p.text).length)).take
          ((limit_sentences sents word_limit).length + 1)).sum) := by
  obtain ⟨h1, h2, h3⟩ := ls_go_spec word_limit sents 0
  refine ⟨?_, h2, ?_⟩
  · rcases h1 with h | h
    · simpa using h
    · rw [limit_sentences, h]
      simp
  · simpa using h3

/-! ### C1 -/

/-- The yield loop of `limit_keyphrases` from any starting `used` count
equals: drop the verb-led lexemes, keep at most `phrase_limit + 1 - used`
of the rest, and cut at the first one whose rank is below the threshold. -/
theorem lk_go_eq (rank_thresh : ℚ) (phrase_limit : ℕ) :
    ∀ (lst : List (RankedLexeme ℚ)) (used : ℕ),
      lk_go rank_thresh phrase_limit lst used =
        (((lst.filter (fun rl => rl.pos.front ≠ 'v')).take
            (phrase_limit + 1 - used)).takeWhile
          (fun rl => ¬ rl.rank < rank_thresh)).map (·.text) := by
  intro lst
  induction lst with
  | nil => intro used; simp [lk_go]
  | cons rl rest ih =>
    intro used
    by_cases hv : rl.pos.front ≠ 'v'
    · rw [List.filter_cons_of_pos (by simpa using hv)]
      by_cases hused : phrase_limit < used
      · have h0 : phrase_limit + 1 - used = 0 := by omega
        rw [h0]
        simp only [List.take_zero, List.takeWhile_nil, List.map_nil, lk_go]
        rw [if_pos hv, if_pos (Or.inl hused)]
      · have h1 : phrase_limit + 1 - used = (phrase_limit + 1 - (used + 1)) + 1 := by omega
        rw [h1, List.take_succ_cons]
        by_cases hrank : rl.rank < rank_thresh
        · rw [List.takeWhile_cons_of_neg (by simpa using hrank)]
          simp only [List.map_nil, lk_go]
          rw [if_pos hv, if_pos (Or.inr hrank)]
        · rw [List.takeWhile_cons_of_pos (by simpa using hrank)]
          simp only [List.map_cons, lk_go]
          rw [if_pos hv, if_neg (by simp [hused, hrank])]
          exact congrArg _ (ih (used + 1))
    · rw [List.filter_cons_of_neg (by simpa using hv)]
      simp only [lk_go]
      rw [if_neg hv]
      exact ih used

/-- C1 (amended): on a non-empty lexeme stream, `limit_keyphrases` yields
exactly the texts of the non-verb-led lexemes up to the first one that is
beyond slot `phrase_limit + 1` or ranks below the mean-rank threshold —
the stop is permanent — and therefore yields at most `phrase_limit + 1`
texts (not `phrase_limit`: the guard `used > phrase_limit` runs before
`used` is incremented, admitting one extra phrase). -/
theorem limit_keyphrases_spec (lex : List (RankedLexeme ℚ)) (phrase_limit : ℕ)
    (h : lex ≠ []) :
    ∃ out, limit_keyphrases lex phrase_limit = .ok out ∧
      out = (((lex.filter (fun rl => rl.pos.front ≠ 'v')).take (phrase_limit + 1)).takeWhile
          (fun rl => ¬ rl.rank < (lex.map (·.rank)).sum / (lex.length : ℚ))).map (·.text) ∧
      out.length ≤ phrase_limit + 1 := by
  have hne : lex.isEmpty = false := by
    cases lex with
    | nil => exact absurd rfl h
    | cons a l => rfl
  refine ⟨_, by rw [limit_keyphrases, hne]; rfl, ?_, ?_⟩
  · rw [lk_go_eq]
    norm_num
  · rw [lk_go_eq]
    simp only [List.length_map]
    refine le_trans (List.Sublist.length_le (List.takeWhile_sublist _)) ?_
    rw [List.length_take]
    omega

/-- C1 witness: the amended characterisation on a one-element stream. -/
theorem limit_keyphrases_spec_witness :
    ex_lex1 ≠ [] ∧
      ∃ out, limit_keyphrases ex_lex1 20 = .ok out ∧
        out = (((ex_lex1.filter (fun rl => rl.pos.front ≠ 'v')).take 21).takeWhile
            (fun rl => ¬ rl.rank < (ex_lex1.map (·.rank)).sum / (ex_lex1.length : ℚ))).map
          (·.text) ∧
        out.length ≤ 21 :=
  ⟨by simp [ex_lex1], limit_keyphrases_spec ex_lex1 20 (by simp [ex_lex1])⟩

/-- The yield loop on a stream of equal-rank (rank 2, threshold 2)
non-verb lexemes yields one text per slot until `used` exceeds 20. -/
theorem lk_go_replicate :
    ∀ (n used : ℕ),
      lk_go 2 20 (List.replicate n (RankedLexeme.mk "t" 2 [1] "np")) used =
        List.replicate (min n (21 - used)) "t" := by
  intro n
  induction n with
  | zero => intro used; simp [lk_go]
  | succ m ih =>
    intro used
    rw [List.replicate_succ]
    by_cases hused : 20 < used
    · have h0 : min (m + 1) (21 - used) = 0 := by omega
      rw [h0]
      simp only [List.replicate, lk_go]
      rw [if_pos (by decide), if_pos (Or.inl hused)]
    · have h1 : min (m + 1) (21 - used) = min m (21 - (used + 1)) + 1 := by omega
      rw [h1, List.replicate_succ]
      simp only [lk_go]
      rw [if_pos (by decide), if_neg (by simp [hused]), ih (used + 1)]

/-- C1 counterexample: a stream of 22 equal-rank non-verb phrases with the
default limit 20 yields 21 texts — more than `phrase_limit` — because the
loop checks `used > phrase_limit` before incrementing `used`. -/
theorem limit_keyphrases_cex :
    limit_keyphrases ex_lex22 20 = .ok (List.replicate 21 "t") ∧
      20 < (List.replicate 21 "t").length := by
  constructor
  · rw [limit_keyphrases]
    rw [show ex_lex22.isEmpty = false from rfl]
    have hth : ((ex_lex22.map (·.rank)).sum / (ex_lex22.length : ℚ)) = 2 := by
      rw [show ex_lex22.map (·.rank) = List.replicate 22 (2 : ℚ) from rfl]
      rw [List.sum_replicate]
      norm_num [ex_lex22]
    rw [hth, show ex_lex22 = List.replicate 22 (RankedLexeme.mk "t" 2 [1] "np") from rfl,
      lk_go_replicate 22 0]
    simp
  · simp

/-! ### C8 -/

/-- When the collected rank sum is non-zero, no division raises and the
yield loop of lines 375-376 maps every lexeme to its normalized copy. -/
theorem mapM_div_ok (s : ℚ) (hs : s ≠ 0) (l : List (RankedLexeme ℚ)) :
    (l.mapM (fun rl =>
        if s = 0 then Except.error PyErr.zeroDivisionError
        else Except.ok { rl with rank := rl.rank / s })) =
      Except.ok (l.map (fun rl => { rl with rank := rl.rank / s })) := by
  induction l with
  | nil => rfl
  | cons rl rest ih =>
    rw [List.mapM_cons, if_neg hs, ih]
    rfl

/-- Summing the pointwise-divided ranks divides the rank sum. -/
theorem sum_div_ranks (s : ℚ) :
    ∀ l : List (RankedLexeme ℚ),
      ((l.map (fun rl => ({ rl with rank := rl.rank / s } : RankedLexeme ℚ))).map
          (·.rank)).sum =
        (l.map (·.rank)).sum / s := by
  intro l
  induction l with
  | nil => simp
  | cons rl rest ih =>
    simp only [List.map_cons, List.sum_cons, ih, add_div]

/-- The stable descending sort of line 375 permutes the collected lexemes,
so it preserves their rank sum. -/
theorem sort_desc_sum_ranks (lex : List (RankedLexeme ℚ)) :
    ((sort_desc lex).map (·.rank)).sum = (lex.map (·.rank)).sum :=
  (List.Perm.map _ (List.mergeSort_perm lex _)).sum_eq

/-- C8: for a non-empty collected lexeme map (whose ranks are positive, as
PageRank scores and the phrase-rank formula produce), the generator
divides every rank by the total and the yielded ranks sum to exactly 1 —
in particular within the ±1e-6 floating tolerance the claim allows. -/
theorem normalize_ranks_sum_one (lex : List (RankedLexeme ℚ)) (hne : lex ≠ [])
    (hpos : ∀ rl ∈ lex, 0 < rl.rank) :
    ∃ out, normalize_ranks lex = .ok out ∧ (out.map (·.rank)).sum = 1 := by
  have hmap : ∀ x ∈ lex.map (·.rank), 0 < x := by
    intro x hx
    obtain ⟨rl, hrl, rfl⟩ := List.mem_map.mp hx
    exact hpos rl hrl
  have hsum : 0 < (lex.map (·.rank)).sum :=
    List.sum_pos _ hmap (by simpa using hne)
  have hs : (lex.map (·.rank)).sum ≠ 0 := ne_of_gt hsum
  refine ⟨(sort_desc lex).map
      (fun rl => { rl with rank := rl.rank / (lex.map (·.rank)).sum }), ?_, ?_⟩
  · simp only [normalize_ranks]
    exact mapM_div_ok _ hs _
  · rw [sum_div_ranks, sort_desc_sum_ranks]
    exact div_self hs

/-- C8 witness: normalization on a concrete two-lexeme map. -/
theorem normalize_ranks_sum_one_witness :
    ex_lex_pos ≠ [] ∧ (∀ rl ∈ ex_lex_pos, 0 < rl.rank) ∧
      ∃ out, normalize_ranks ex_lex_pos = .ok out ∧ (out.map (·.rank)).sum = 1 :=
  ⟨by simp [ex_lex_pos], by simp [ex_lex_pos],
    normalize_ranks_sum_one ex_lex_pos (by simp [ex_lex_pos])
      (by simp [ex_lex_pos])⟩

/-! ### C3 -/

/-- C3 counterexample: on the two-token run "red cat", a chunker phrase
that aligns nowhere ("blue dog") drives `normalize_key_phrases` into a
`TypeError` (`set.union` over the `None` returned by `find_chunk`), and a
phrase whose first word matches only the run's last token ("cat dog")
makes `find_chunk_sub` read past the end of the run — an `IndexError`.
Neither phrase is silently dropped. -/
theorem consume_chunks_unaligned_cex :
    consume_chunks (fun _ => (0 : ℚ)) (fun _ => ["blue dog"]) ex_run_redcat =
        .error .typeError ∧
      consume_chunks (fun _ => (0 : ℚ)) (fun _ => ["cat dog"]) ex_run_redcat =
        .error .indexError :=
  ⟨rfl, rfl⟩

/-- C3 (amended): a chunker-returned phrase that cannot be aligned to a
contiguous sub-sequence of its run is not dropped: `find_chunk` returns
`None` and the consuming loop of `normalize_key_phrases` raises an error
(`TypeError`, from `set.union` over `None`) instead of continuing. -/
theorem consume_chunks_unaligned_raises {α : Type}
    (combine : List (RankedLexeme α) → α) (chunker : String → List String)
    (phrase : List (RankedLexeme α)) (np : String)
    (hlen : 1 < phrase.length)
    (hch : (chunker (py_join " " (phrase.map (·.text)))).filter
        (fun q => q ≠ py_join " " (phrase.map (·.text))) = [np])
    (hal : find_chunk phrase (py_split ' ' np) = .ok none) :
    consume_chunks combine chunker phrase = .error .typeError := by
  simp only [consume_chunks]
  rw [if_pos hlen, hch]
  rw [List.mapM_cons, hal]
  rfl

/-- C3 witness: the amended statement on the run "big dog" with the
unalignable chunker phrase "tiny hog". -/
theorem consume_chunks_unaligned_raises_witness :
    1 < ex_run_bigdog.length ∧
      ((fun _ => ["tiny hog"]) (py_join " " (ex_run_bigdog.map (·.text)))).filter
          (fun q => q ≠ py_join " " (ex_run_bigdog.map (·.text))) = ["tiny hog"] ∧
      find_chunk ex_run_bigdog (py_split ' ' "tiny hog") = .ok none ∧
      consume_chunks (fun _ => (0 : ℚ)) (fun _ => ["tiny hog"]) ex_run_bigdog =
        .error .typeError :=
  ⟨by decide, rfl, rfl,
    consume_chunks_unaligned_raises (fun _ => (0 : ℚ)) (fun _ => ["tiny hog"])
      ex_run_bigdog "tiny hog" (by decide) rfl rfl⟩

/-! ### C6 -/

/-- C6: the pre-normalization rank of an emitted phrase (line 360, the
`combine` slot of `consume_chunks_real`) is
`sqrt(Σ member rank²) / member_count + max_single_rank`, and on member
ranks 0.3 and 0.4 with `max_single_rank = 0.5` it is exactly
`sqrt(0.09 + 0.16) / 2 + 0.5 = 0.75`. -/
theorem chunk_rank_formula :
    (∀ (p : List (RankedLexeme ℝ)) (max_single_rank : ℝ),
      chunk_rank p max_single_rank =
        Real.sqrt ((p.map (fun rl => rl.rank ^ 2)).sum) / (p.length : ℝ) + max_single_rank) ∧
    chunk_rank ex_run_real (1/2) = 3/4 := by
  refine ⟨fun p ms => rfl, ?_⟩
  rw [chunk_rank]
  have hmap : ex_run_real.map (fun rl => rl.rank ^ 2) = [(3/10 : ℝ) ^ 2, (2/5 : ℝ) ^ 2] := by
    simp [ex_run_real]
  have hlen : ((ex_run_real.length : ℕ) : ℝ) = 2 := by simp [ex_run_real]
  rw [hmap, hlen]
  simp only [List.sum_cons, List.sum_nil]
  rw [show (3/10 : ℝ) ^ 2 + ((2/5 : ℝ) ^ 2 + 0) = (1/2) ^ 2 by norm_num]
  rw [Real.sqrt_sq (by norm_num : (0:ℝ) ≤ 1/2)]
  norm_num

/-! ### C9 -/

/-- C9 counterexample: a corpus [good, malformed, good] stops at the
malformed document with a `KeyError` (not an `InputError`): the first
document's sentences were already yielded and stand, but the third
document is never processed — the iteration is aborted, not scoped to the
malformed document. -/
theorem parse_doc_abort_cex :
    parse_doc ex_parse_fn ex_docs_bad =
      ([ParsedGraf.mk "d1" "hello" []], some .keyError) := by decide

/-- C9 (amended): a document record lacking its text body (or lacking its
identifier while its text yields at least one paragraph) makes `parse_doc`
raise a `KeyError` at that document: everything yielded for earlier
documents stands unchanged, but the generator terminates and no later
document is processed. -/
theorem parse_doc_keyerror_aborts
    (parse_graf_fn : String → String → ℕ → List ParsedGraf × ℕ)
    (pre : List DocMeta) (bad : DocMeta) (rest : List DocMeta)
    (hpre : (parse_doc parse_graf_fn pre).2 = none)
    (hbad : bad.text = none ∨
      (bad.id = none ∧ ∃ t, bad.text = some t ∧ filter_quotes t ≠ [])) :
    parse_doc parse_graf_fn (pre ++ bad :: rest) =
      ((parse_doc parse_graf_fn pre).1, some .keyError) := by
  induction pre with
  | nil =>
    simp only [List.nil_append]
    rcases hbad with h | ⟨hid, t, ht, hfq⟩
    · simp only [parse_doc, h]
    · simp only [parse_doc, ht]
      cases hq : filter_quotes t with
      | nil => exact absurd hq hfq
      | cons a l => simp only [hid]
  | cons m pre' ih =>
    cases hm : m.text with
    | none =>
      rw [show parse_doc parse_graf_fn (m :: pre') = ([], some .keyError) by
        simp only [parse_doc, hm]] at hpre
      exact absurd hpre (by simp)
    | some txt =>
      cases hq : filter_quotes txt with
      | nil =>
        have hpre' : (parse_doc parse_graf_fn pre').2 = none := by
          rw [show parse_doc parse_graf_fn (m :: pre') = parse_doc parse_graf_fn pre' by
            simp only [parse_doc, hm, hq]] at hpre
          exact hpre
        simp only [List.cons_append, parse_doc, hm, hq]
        exact ih hpre'
      | cons a l =>
        cases hid : m.id with
        | none =>
          rw [show parse_doc parse_graf_fn (m :: pre') = ([], some .keyError) by
            simp only [parse_doc, hm, hq, hid]] at hpre
          exact absurd hpre (by simp)
        | some did =>
          have hpre' : (parse_doc parse_graf_fn pre').2 = none := by
            simp only [parse_doc, hm, hq, hid] at hpre
            exact hpre
          simp only [List.cons_append, parse_doc, hm, hq, hid, List.append_eq, ih hpre']

/-- C9 witness: the amended statement with an empty prefix, a text-less
document, and one later document that is dropped. -/
theorem parse_doc_keyerror_aborts_witness :
    (parse_doc ex_parse_fn []).2 = none ∧
      ((DocMeta.mk (some "d2") none).text = none ∨
        ((DocMeta.mk (some "d2") none).id = none ∧
          ∃ t, (DocMeta.mk (some "d2") none).text = some t ∧ filter_quotes t ≠ [])) ∧
      parse_doc ex_parse_fn ([] ++ DocMeta.mk (some "d2") none :: [DocMeta.mk (some "d3") (some "world")]) =
        ((parse_doc ex_parse_fn []).1, some .keyError) :=
  ⟨rfl, Or.inl rfl,
    parse_doc_keyerror_aborts ex_parse_fn [] (DocMeta.mk (some "d2") none)
      [DocMeta.mk (some "d3") (some "world")] rfl (Or.inl rfl)⟩

/-! ### C10 -/

/-- A token list absorbed as a run produces no flush at all: the loop eats
every token and ends with the accumulator still in hand. -/
theorem phrase_pass_go_run (ranks : List (String × ℚ)) :
    ∀ (suf : List WordNode) (last_idx : ℤ) (phrase : List (RankedLexeme ℚ)),
      is_run ranks last_idx suf = true →
        phrase_pass_go ranks suf last_idx phrase = [] := by
  intro suf
  induction suf with
  | nil => intro li ph _; rfl
  | cons w rest ih =>
    intro li ph h
    simp only [is_run, Bool.and_eq_true] at h
    simp only [phrase_pass_go]
    rw [if_pos h.1]
    exact ih _ _ h.2

/-- Appending a run that stays collectible from the state reached after
`pre` changes nothing about the flushed runs. -/
theorem phrase_pass_go_append (ranks : List (String × ℚ)) :
    ∀ (pre suf : List WordNode) (last_idx : ℤ) (phrase : List (RankedLexeme ℚ)),
      is_run ranks (last_idx_after last_idx pre) suf = true →
        phrase_pass_go ranks (pre ++ suf) last_idx phrase =
          phrase_pass_go ranks pre last_idx phrase := by
  intro pre
  induction pre with
  | nil =>
    intro suf li ph h
    simp only [last_idx_after] at h
    simp only [List.nil_append, phrase_pass_go]
    exact phrase_pass_go_run ranks suf li ph h
  | cons w pre' ih =>
    intro suf li ph h
    simp only [last_idx_after] at h
    simp only [List.cons_append, phrase_pass_go]
    by_cases hc : collectible ranks li w = true
    · rw [if_pos hc, if_pos hc]
      exact ih suf w.idx _ h
    · rw [if_neg hc, if_neg hc]
      exact congrArg _ (ih suf w.idx [] h)

/-- C10: a contiguous run of kept, ranked tokens (gap exactly 1) that
extends to the end of its sentence is never handed to the chunker and
yields no multi-token lexeme: the accumulator is only flushed at a
breaking token inside the sentence, and the flushed runs of the sentence
are exactly those of its prefix before the trailing run. -/
theorem phrase_pass_drops_trailing_run (ranks : List (String × ℚ))
    (pre suf : List WordNode) (hne : suf ≠ [])
    (hrun : is_run ranks (last_idx_after (run_start (pre ++ suf)) pre) suf = true) :
    phrase_pass ranks (pre ++ suf) = phrase_pass ranks pre := by
  cases pre with
  | nil =>
    cases suf with
    | nil => exact absurd rfl hne
    | cons w rest =>
      simp only [run_start, List.nil_append, last_idx_after] at hrun
      simp only [List.nil_append, phrase_pass]
      exact phrase_pass_go_run ranks (w :: rest) (w.idx - 1) [] hrun
  | cons w pre' =>
    simp only [run_start, List.cons_append, last_idx_after] at hrun
    simp only [List.cons_append, phrase_pass]
    exact phrase_pass_go_append ranks (w :: pre') suf (w.idx - 1) []
      (by simpa [last_idx_after] using hrun)

/-- C10 witness: the sentence "The Cat Dog" whose trailing kept-and-ranked
run "Cat Dog" reaches the sentence end: its flushed runs are those of the
prefix "The" alone. -/
theorem phrase_pass_drops_trailing_run_witness :
    ([ex_tok_cat, ex_tok_dog] ≠ ([] : List WordNode)) ∧
      is_run ex_ranks_cd
        (last_idx_after (run_start ([ex_tok_the] ++ [ex_tok_cat, ex_tok_dog])) [ex_tok_the])
        [ex_tok_cat, ex_tok_dog] = true ∧
      phrase_pass ex_ranks_cd ([ex_tok_the] ++ [ex_tok_cat, ex_tok_dog]) =
        phrase_pass ex_ranks_cd [ex_tok_the] :=
  ⟨by simp, by decide,
    phrase_pass_drops_trailing_run ex_ranks_cd [ex_tok_the] [ex_tok_cat, ex_tok_dog]
      (by simp) (by decide)⟩

end TextRank
